import Mathlib

/-!
Verification of the qualitative-analysis pipeline
(`notebooks/Qualitative_Analysis.ipynb`): a shallow embedding in Lean 4 of
the data-cleaning, sampling, batching and label-reconciliation code, with
theorems settling the behavioural claims about it.

Modelling conventions:
* pandas `NaN` cells are modelled as `Option.none`; a dataframe is a
  `List` of record structures.
* Python strings are modelled as `List Char`.
* Python `str.isalpha` is Unicode-aware; we model it on the character
  ranges that occur in this data set (ASCII letters and CJK Unified
  Ideographs, which covers the skip marker 跳过).
* pandas `DataFrame.sample(n, random_state)` draws `n` distinct rows in
  random order.  The Mersenne-Twister stream is not reproduced; instead
  the pipeline is parameterised by an abstract sampler constrained by
  the documented contract (`SamplerSpec`), and theorems quantify over
  every sampler satisfying it.  Likewise `sample(frac=1, random_state)`
  is an abstract permutation (`ShuffleSpec`).
* Python `float` values are modelled as exact rationals `ℚ`; the
  confidence strings handled by the notebook are short decimal literals,
  for which the binary-float rounding plays no role in the claims.
-/

namespace QualAnalysis

/-- Models Python `str.isalpha` restricted to the character ranges that
occur in this repository's data: ASCII letters plus the CJK Unified
Ideographs block (U+4E00–U+9FFF), which contains 跳 and 过. -/
def pyIsAlpha (c : Char) : Bool :=
  c.isAlpha || (0x4E00 ≤ c.toNat && c.toNat ≤ 0x9FFF)

/-- Models `char.isdigit() or char == '.'` from `clean_confidence_value`
(ASCII digits; the notebook's data holds no other Unicode digits). -/
def isNumChar (c : Char) : Bool :=
  c.isDigit || c == '.'

/-- `clean_answer(answer)`: returns NaN unchanged, otherwise keeps exactly
the alphabetic characters of the string, in order
(`''.join(char for char in str(answer) if char.isalpha())`). -/
def clean_answer : Option (List Char) → Option (List Char)
  | none => none
  | some s => some (s.filter pyIsAlpha)

/-- Value of a list of decimal digit characters read left to right
(most significant first); leading zeros are allowed. -/
def digitsVal (l : List Char) : Nat :=
  l.foldl (fun a c => a * 10 + (c.toNat - 48)) 0

/-- Models Python `float(s)` on a string already consisting only of ASCII
digits and dots (the output of the notebook's stripping step): the parse
succeeds iff the string holds at most one `'.'` and at least one digit,
and the value is the denoted decimal number, as an exact rational. -/
def parseStripped (s : List Char) : Option ℚ :=
  if s.count '.' ≤ 1 && s.any Char.isDigit then
    let ip := s.takeWhile (· ≠ '.')
    let fp := (s.dropWhile (· ≠ '.')).drop 1
    some ((digitsVal ip : ℚ) + (digitsVal fp : ℚ) / (10 : ℚ) ^ fp.length)
  else
    none

/-- A raw cell value as seen by `clean_confidence_value`: NaN, a string,
or an already-numeric value. -/
inductive PyVal where
  | nan : PyVal
  | str (s : List Char) : PyVal
  | num (q : ℚ) : PyVal
deriving DecidableEq

/-- `clean_confidence_value(x)`: NaN becomes a missing value; a string is
stripped to its digit/dot characters and parsed with `float`, any parse
failure (`ValueError`) becoming a missing value; a numeric value is
passed through `float` unchanged. -/
def clean_confidence_value : PyVal → Option ℚ
  | .nan => none
  | .str s => parseStripped (s.filter isNumChar)
  | .num q => some q

/-- A raw row of a results CSV file, restricted to the columns the
notebook touches: the model name column, the answer columns and the
confidence column (plus a question identifier carried along). -/
structure RawRow where
  questionID : Nat
  model : String
  rawModelAnswer : Option (List Char)
  rawCorrectAnswer : Option (List Char)
  rawConfidence : PyVal
deriving DecidableEq

/-- One discovered input file: `parts` stands for
`os.path.basename(file).replace('.csv', '').split('_')` and `rows` for
the table returned by `pd.read_csv(file)`. -/
structure InputFile where
  parts : List String
  rows : List RawRow
deriving DecidableEq

/-- A processed result record: one exam question answered by one model
under one condition, after cleaning and with the derived columns. -/
structure ResultRecord where
  questionID : Nat
  model : String
  modelAnswer : Option (List Char)
  correctAnswer : Option (List Char)
  modelConfidence : Option ℚ
  condition : String
  examType : String
  questionType : String
  isCorrect : Bool
deriving DecidableEq

/-- pandas element-wise `==` on two cells that may be NaN: a missing
value on either side compares unequal (NaN == NaN is False). -/
def pdEq (a b : Option (List Char)) : Bool :=
  match a, b with
  | some x, some y => x == y
  | _, _ => false

/-- One iteration of the file loop in `load_and_process_files`.
`.ok none` means the file is skipped (part count other than 6, no
`'condition'` part, or a condition number other than `'1'`);
`.ok (some rows)` is the cleaned and augmented table of a condition-1
file; `.error` is the uncaught `IndexError` raised by
`parts[condition_index + 1]` when `'condition'` is the last part. -/
def processFile (f : InputFile) : Except String (Option (List ResultRecord)) :=
  if f.parts.length ≠ 6 then .ok none
  else
    match f.parts.indexOf? ("condition") with
    | none => .ok none
    | some i =>
      match f.parts.get? (i + 1) with
      | none => .error ("IndexError")
      | some num =>
        if num ≠ "1" then .ok none
        else
          .ok (some (f.rows.map (fun r =>
            let ma := clean_answer r.rawModelAnswer
            let ca := clean_answer r.rawCorrectAnswer
            { questionID := r.questionID
              model := r.model
              modelAnswer := ma
              correctAnswer := ca
              modelConfidence := clean_confidence_value r.rawConfidence
              condition := f.parts.getD 3 "" ++ f.parts.getD 4 ""
              examType := f.parts.getD 1 ""
              questionType := f.parts.getD 5 ""
              isCorrect := pdEq ma ca })))

/-- `load_and_process_files()`: processes each discovered file in turn,
skipping malformed or non-condition-1 files, and concatenates the
per-file tables; with no files at all the result is the empty table.
An `IndexError` in the loop aborts the whole call. -/
def load_and_process_files : List InputFile → Except String (List ResultRecord)
  | [] => .ok []
  | f :: fs =>
    match processFile f with
    | .error e => .error e
    | .ok r =>
      match load_and_process_files fs with
      | .error e => .error e
      | .ok rest =>
        match r with
        | none => .ok rest
        | some rows => .ok (rows ++ rest)

/-- Helper for `uniqueList`: keeps the values of the second list not
already seen (first argument), in order, recording what it keeps. -/
def uniqueAux (seen : List String) : List String → List String
  | [] => []
  | a :: l => if a ∈ seen then uniqueAux seen l else a :: uniqueAux (a :: seen) l

/-- `Series.unique()`: the distinct values in first-appearance order. -/
def uniqueList (l : List String) : List String := uniqueAux [] l

/-- The model column's distinct values, `df['Model'].unique()`. -/
def modelsOf (df : List ResultRecord) : List String :=
  uniqueList (df.map ResultRecord.model)

/-- The per-model correct rows:
`subset[subset['Is_Correct'] == True]` for `subset = df[df['Model'] == model]`. -/
def correctOf (df : List ResultRecord) (m : String) : List ResultRecord :=
  df.filter (fun r => r.model == m && r.isCorrect)

/-- Substring containment: `pat` occurs consecutively somewhere in the
string (Python's `in` / `str.contains` with a literal pattern). -/
def containsSub (pat : List Char) : List Char → Bool
  | [] => pat.isPrefixOf []
  | c :: rest => pat.isPrefixOf (c :: rest) || containsSub pat rest

/-- Models `.str.contains("跳过", na=False)`: substring containment of
the skip marker, a missing value counting as not containing it. -/
def containsSkip : Option (List Char) → Bool
  | none => false
  | some s => containsSub ['跳', '过'] s

/-- The per-model incorrect rows that do not contain the skip marker:
`subset[(subset['Is_Correct'] == False) & (~subset['Model_Answer'].str.contains("跳过", na=False))]`. -/
def incorrectOf (df : List ResultRecord) (m : String) : List ResultRecord :=
  df.filter (fun r => r.model == m && !r.isCorrect && !containsSkip r.modelAnswer)

/-- The contract of `DataFrame.sample(n=k, random_state=s)` when `k`
does not exceed the population size: exactly `k` of the rows are
returned, each at most as often as it occurs, in some order.  The
fixed `random_state` makes the choice a deterministic function, but
reproducing the Mersenne-Twister stream is out of scope, so the
pipeline is parameterised by the sampler and theorems quantify over
every function satisfying this contract. -/
def SamplerSpec {α : Type} (sel : Nat → List α → List α) : Prop :=
  ∀ k l, k ≤ l.length → (sel k l).length = k ∧ List.Subperm (sel k l) l

/-- The concatenated per-model correct samples of `create_samples`:
for each model, `correct_answers.sample(n=min(30, len(correct_answers)), random_state=1)`
when the model has any correct answers. -/
def trueSamplesRaw (sel : Nat → List ResultRecord → List ResultRecord)
    (df : List ResultRecord) : List ResultRecord :=
  (modelsOf df).flatMap (fun m =>
    let corr := correctOf df m
    if 0 < corr.length then sel (min 30 corr.length) corr else [])

/-- The concatenated per-model incorrect samples of `create_samples`:
all incorrect, non-skip answers of each model. -/
def falseSamplesRaw (df : List ResultRecord) : List ResultRecord :=
  (modelsOf df).flatMap (fun m =>
    let inc := incorrectOf df m
    if 0 < inc.length then inc else [])

/-- The row comparison of
`sort_values(by=['Model', 'Exam_Type', 'Question_Type'], ascending=[True, True, False])`:
lexicographic on model ascending, exam type ascending, question type
descending.  pandas' default sort is not stable; no claim proved below
depends on the order of tied rows. -/
def sampleLE (a b : ResultRecord) : Bool :=
  if a.model ≠ b.model then decide (a.model < b.model)
  else if a.examType ≠ b.examType then decide (a.examType < b.examType)
  else decide (b.questionType ≤ a.questionType)

/-- Decimal digit characters of `n`, most significant first (empty for 0). -/
def decChars (n : Nat) : List Char :=
  (Nat.digits 10 n).reverse.map Nat.digitChar

/-- The Python format `f"S..."` with `i` zero-padded to width 3
(`i:03d`): the letter `'S'` followed by the decimal digits of `i`,
left-padded with `'0'` to at least three digits. -/
def sampleIDStr (i : Nat) : List Char :=
  'S' :: (List.replicate (3 - (decChars i).length) '0' ++ decChars i)

/-- A sample record: a result record with its `Sample_ID` column (the
empty `code` and `comment` columns carry no information and are not
modelled). -/
structure SampleRec where
  row : ResultRecord
  sampleID : List Char
deriving DecidableEq

/-- Adding the `Sample_ID` column: row `j` (0-based) receives the
identifier of number `start + j`. -/
def assignIDs (start : Nat) : List ResultRecord → List SampleRec
  | [] => []
  | r :: rs => ⟨r, sampleIDStr start⟩ :: assignIDs (start + 1) rs

/-- `create_samples(df)`: the per-model samples are concatenated, the
true and false tables are each sorted by model, exam type and question
type (descending), and sequential zero-padded identifiers are assigned,
with the false table's numbering starting right after the true
table's. -/
def create_samples (sel : Nat → List ResultRecord → List ResultRecord)
    (df : List ResultRecord) : List SampleRec × List SampleRec :=
  let t := (trueSamplesRaw sel df).mergeSort sampleLE
  let f := (falseSamplesRaw df).mergeSort sampleLE
  (assignIDs 1 t, assignIDs (t.length + 1) f)

/-- The reliability carve-out `sample(n=30, random_state=1)`: pandas
raises `ValueError` when the population is smaller than 30, modelled as
`none`. -/
def reliabilitySample (sel : Nat → List SampleRec → List SampleRec)
    (samples : List SampleRec) : Option (List SampleRec) :=
  if 30 ≤ samples.length then some (sel 30 samples) else none

/-- The rater carve-out
`true_samples[~true_samples['Sample_ID'].isin(true_raliability['Sample_ID'])]`:
every row whose identifier occurs in the reliability subset is removed,
by set membership of the identifier. -/
def raterPool (samples rel : List SampleRec) : List SampleRec :=
  samples.filter (fun s => !((rel.map SampleRec.sampleID).contains s.sampleID))

/-- The contract of the shuffle `sample(frac=1, random_state=77)`: a
permutation of the rows (deterministic for the fixed seed, but the
stream is not reproduced, so theorems quantify over it). -/
def ShuffleSpec (sh : List SampleRec → List SampleRec) : Prop :=
  ∀ l, List.Perm (sh l) l

/-- `batch_size = 100`. -/
def batchSize : Nat := 100

/-- `num_batches = len(df) // batch_size + 1`. -/
def numBatches (l : List SampleRec) : Nat := l.length / batchSize + 1

/-- Exported batch `i` (0-based): `df.iloc[i*batch_size : (i+1)*batch_size]`. -/
def batch (l : List SampleRec) (i : Nat) : List SampleRec :=
  (l.drop (i * batchSize)).take batchSize

/-- All exported rater batches, in export order. -/
def raterBatches (l : List SampleRec) : List (List SampleRec) :=
  (List.range (numBatches l)).map (batch l)

/-- A row of the labelled correct-set file, with the two raters' label
columns (the files are rated by Zia and Miao). -/
structure LabeledCorrect where
  sampleID : List Char
  zia : Option String
  miao : Option String
deriving DecidableEq

/-- A row of the labelled incorrect-set file, with the four raters'
label columns. -/
structure LabeledIncorrect where
  sampleID : List Char
  sitao : Option String
  cao : Option String
  miao : Option String
  zia : Option String
deriving DecidableEq

/-- The correct-set reconciliation
`row['Zia'] if pd.notna(row['Zia']) else row['Miao']`. -/
def labelCorrect (r : LabeledCorrect) : Option String :=
  match r.zia with
  | some v => some v
  | none => r.miao

/-- The incorrect-set reconciliation: Sitao, then Cao, then Miao, then
Zia, each taken when non-missing. -/
def labelIncorrect (r : LabeledIncorrect) : Option String :=
  match r.sitao with
  | some v => some v
  | none =>
    match r.cao with
    | some v => some v
    | none =>
      match r.miao with
      | some v => some v
      | none => r.zia

/-- The missing-label check
`labeled_correct[labeled_correct['label'].isna()]`, printed for manual
follow-up. -/
def flaggedCorrect (rows : List LabeledCorrect) : List LabeledCorrect :=
  rows.filter (fun r => (labelCorrect r).isNone)

/-- The missing-label check for the incorrect-set table. -/
def flaggedIncorrect (rows : List LabeledIncorrect) : List LabeledIncorrect :=
  rows.filter (fun r => (labelIncorrect r).isNone)

/-- Written from the spec's words, for comparison with the code's
nested conditionals: the first non-missing value of a priority-ordered
list of rater values. -/
def firstNonMissing : List (Option String) → Option String
  | [] => none
  | some v :: _ => some v
  | none :: t => firstNonMissing t

/-- The numeric part of a sample identifier: the value of the digits
after the leading `'S'`. -/
def idNum (s : List Char) : Nat := digitsVal (s.drop 1)

/-- The spec sentence under scrutiny for the loaded answer fields reads
them as uppercase-letter-only tokens: every character of a present
answer is an uppercase ASCII letter. -/
def upperOnly : Option (List Char) → Bool
  | none => true
  | some s => s.all Char.isUpper

/-- A concrete sampler satisfying `SamplerSpec`, used to witness the
sampler-parameterised theorems: it keeps the first `k` rows. -/
def takeSampler {α : Type} (k : Nat) (l : List α) : List α := l.take k

/-- A concrete shuffle satisfying `ShuffleSpec`, used as a witness: the
identity permutation. -/
def idShuffle (l : List SampleRec) : List SampleRec := l

/-- A minimal result record used to build concrete witness tables. -/
def demoRec (qid : Nat) (m : String) (correct : Bool) : ResultRecord :=
  { questionID := qid
    model := m
    modelAnswer := some ['A']
    correctAnswer := if correct then some ['A'] else some ['B']
    modelConfidence := none
    condition := "condition1"
    examType := "policy"
    questionType := "single"
    isCorrect := correct }

/-- A concrete sample record for witness tables; the identifier is a
string of `qid` copies of `'S'`, distinct for distinct `qid`. -/
def demoSample (qid : Nat) : SampleRec :=
  ⟨demoRec qid "qwen" true, List.replicate qid 'S'⟩

/-- A concrete sample table of `n` rows with distinct identifiers. -/
def demoSamples (n : Nat) : List SampleRec :=
  (List.range' 1 n).map demoSample

/-- A concrete input table for witnessing the sampling theorems. -/
def demoDF : List ResultRecord :=
  [demoRec 1 "qwen" true, demoRec 2 "qwen" false, demoRec 3 "gpt" true]

/-- A concrete condition-1 input file whose single row carries a
lowercase model answer. -/
def demoFileLower : InputFile :=
  { parts := ["results", "policy", "qwen", "condition", "1", "single"]
    rows := [{ questionID := 1
               model := "qwen"
               rawModelAnswer := some ['a']
               rawCorrectAnswer := some ['A']
               rawConfidence := .nan }] }

/-- The record that loading `demoFileLower` produces. -/
def demoLowerRec : ResultRecord :=
  { questionID := 1
    model := "qwen"
    modelAnswer := some ['a']
    correctAnswer := some ['A']
    modelConfidence := none
    condition := "condition1"
    examType := "policy"
    questionType := "single"
    isCorrect := false }

end QualAnalysis

namespace QualAnalysis

lemma foldl_digitsVal (l : List Char) (acc : Nat) :
    l.foldl (fun a c => a * 10 + (c.toNat - 48)) acc
      = acc * 10 ^ l.length + digitsVal l := by
  induction l generalizing acc with
  | nil => simp [digitsVal]
  | cons c t ih =>
    have h1 : digitsVal (c :: t) = (c.toNat - 48) * 10 ^ t.length + digitsVal t := by
      have := ih (c.toNat - 48)
      simpa [digitsVal] using this
    simp only [List.foldl_cons, List.length_cons]
    rw [ih (acc * 10 + (c.toNat - 48)), h1]
    ring

lemma digitsVal_append (l₁ l₂ : List Char) :
    digitsVal (l₁ ++ l₂) = digitsVal l₁ * 10 ^ l₂.length + digitsVal l₂ := by
  unfold digitsVal
  rw [List.foldl_append, foldl_digitsVal]
  rfl

lemma digitsVal_replicate_zero (k : Nat) : digitsVal (List.replicate k '0') = 0 := by
  induction k with
  | zero => rfl
  | succ n ih =>
    rw [List.replicate_succ]
    show List.foldl _ (0 * 10 + ('0'.toNat - 48)) (List.replicate n '0') = 0
    simpa [digitsVal] using ih

lemma digitChar_val (d : Nat) (h : d < 10) : (Nat.digitChar d).toNat - 48 = d := by
  interval_cases d <;> rfl

lemma digitsVal_rev_map (ds : List Nat) (h : ∀ d ∈ ds, d < 10) :
    digitsVal (ds.reverse.map Nat.digitChar) = Nat.ofDigits 10 ds := by
  induction ds with
  | nil => simp [digitsVal, Nat.ofDigits]
  | cons d t ih =>
    simp only [List.reverse_cons, List.map_append, List.map_cons, List.map_nil]
    rw [digitsVal_append]
    have hd : (Nat.digitChar d).toNat - 48 = d := digitChar_val d (h d (by simp))
    have ht : ∀ x ∈ t, x < 10 := fun x hx => h x (by simp [hx])
    rw [ih ht, Nat.ofDigits_cons]
    have hone : digitsVal [Nat.digitChar d] = (Nat.digitChar d).toNat - 48 := by
      simp [digitsVal]
    simp only [List.length_cons, List.length_nil, hone, hd]
    ring

lemma digitsVal_decChars (n : Nat) : digitsVal (decChars n) = n := by
  unfold decChars
  rw [digitsVal_rev_map _ (fun d hd => Nat.digits_lt_base (by norm_num) hd)]
  exact Nat.ofDigits_digits 10 n

lemma idNum_sampleIDStr (n : Nat) : idNum (sampleIDStr n) = n := by
  simp only [idNum, sampleIDStr, List.drop_succ_cons, List.drop_zero]
  rw [digitsVal_append, digitsVal_replicate_zero, digitsVal_decChars]
  simp

lemma sampleIDStr_injective : Function.Injective sampleIDStr :=
  Function.LeftInverse.injective idNum_sampleIDStr

lemma mem_uniqueAux (a : String) (l seen : List String) :
    a ∈ uniqueAux seen l ↔ a ∈ l ∧ a ∉ seen := by
  induction l generalizing seen with
  | nil => simp [uniqueAux]
  | cons b l ih =>
    rw [uniqueAux]
    by_cases hb : b ∈ seen
    · rw [if_pos hb, ih]
      constructor
      · exact fun hx => ⟨List.mem_cons_of_mem _ hx.1, hx.2⟩
      · rintro ⟨hx, hns⟩
        rcases List.mem_cons.mp hx with rfl | hx
        · exact absurd hb hns
        · exact ⟨hx, hns⟩
    · rw [if_neg hb]
      by_cases hab : a = b
      · subst hab; simp [hb]
      · simp [ih, hab]

lemma mem_uniqueList (a : String) (l : List String) : a ∈ uniqueList l ↔ a ∈ l := by
  rw [uniqueList, mem_uniqueAux]
  simp

lemma nodup_uniqueAux (l : List String) : ∀ seen, (uniqueAux seen l).Nodup := by
  induction l with
  | nil => intro seen; simp [uniqueAux]
  | cons b l ih =>
    intro seen
    rw [uniqueAux]
    by_cases hb : b ∈ seen
    · rw [if_pos hb]; exact ih seen
    · rw [if_neg hb, List.nodup_cons]
      refine ⟨fun hmem => ?_, ih _⟩
      exact (mem_uniqueAux b l _ |>.mp hmem).2 (List.mem_cons_self _ _)

lemma nodup_uniqueList (l : List String) : (uniqueList l).Nodup :=
  nodup_uniqueAux l []

lemma assignIDs_map_row (start : Nat) (l : List ResultRecord) :
    (assignIDs start l).map SampleRec.row = l := by
  induction l generalizing start with
  | nil => rfl
  | cons r rs ih => simp [assignIDs, ih]

lemma length_assignIDs (start : Nat) (l : List ResultRecord) :
    (assignIDs start l).length = l.length := by
  induction l generalizing start with
  | nil => rfl
  | cons r rs ih => simp [assignIDs, ih]

lemma assignIDs_map_id (start : Nat) (l : List ResultRecord) :
    (assignIDs start l).map SampleRec.sampleID
      = (List.range' start l.length).map sampleIDStr := by
  induction l generalizing start with
  | nil => rfl
  | cons r rs ih => simp [assignIDs, ih, List.range'_succ]

lemma assignIDs_filter_length (start : Nat) (l : List ResultRecord)
    (q : ResultRecord → Bool) :
    ((assignIDs start l).filter (fun s => q s.row)).length = (l.filter q).length := by
  induction l generalizing start with
  | nil => rfl
  | cons r rs ih =>
    simp only [assignIDs, List.filter_cons]
    by_cases h : q r = true
    · simp [h, ih]
    · simp only [Bool.not_eq_true] at h
      simp [h, ih]

lemma flatMap_congr {α β : Type} (l : List α) (f g : α → List β)
    (h : ∀ a ∈ l, f a = g a) : l.flatMap f = l.flatMap g := by
  induction l with
  | nil => rfl
  | cons a t ih =>
    rw [List.flatMap_cons, List.flatMap_cons, h a (List.mem_cons_self _ _),
        ih (fun x hx => h x (List.mem_cons_of_mem _ hx))]

lemma flatMap_filter_perm {α κ : Type} [DecidableEq κ] (key : α → κ) (df : List α) :
    ∀ (ms : List κ) (p : α → Bool), ms.Nodup →
      (∀ r ∈ df, p r = true → key r ∈ ms) →
      List.Perm (ms.flatMap (fun m => df.filter (fun r => key r == m && p r)))
        (df.filter p) := by
  intro ms
  induction ms with
  | nil =>
    intro p _ hcov
    have hnil : df.filter p = [] :=
      List.filter_eq_nil_iff.mpr (fun a ha hpa => by simpa using hcov a ha hpa)
    simp [hnil]
  | cons m ms ih =>
    intro p hnd hcov
    have hm : m ∉ ms := (List.nodup_cons.mp hnd).1
    have hnd' : ms.Nodup := (List.nodup_cons.mp hnd).2
    rw [List.flatMap_cons]
    have htail :
        (ms.flatMap fun m' => df.filter fun r => key r == m' && p r)
          = ms.flatMap fun m' => df.filter fun r => key r == m' && (!(key r == m) && p r) := by
      apply flatMap_congr
      intro m' hm'
      apply List.filter_congr
      intro r _
      by_cases hk : key r = m'
      · have hne : key r ≠ m := fun hh => hm ((hk.symm.trans hh) ▸ hm')
        have h1 : (key r == m') = true := by simp [hk]
        have h2 : (key r == m) = false := by simp [hne]
        rw [h1, h2]
        simp
      · have h1 : (key r == m') = false := by simp [hk]
        rw [h1]
        simp
    have hcov' : ∀ r ∈ df, (!(key r == m) && p r) = true → key r ∈ ms := by
      intro r hr hpr
      have hpr' : key r ≠ m ∧ p r = true := by simpa using hpr
      rcases List.mem_cons.mp (hcov r hr hpr'.2) with h | h
      · exact absurd h hpr'.1
      · exact h
    have hperm := ih (fun r => !(key r == m) && p r) hnd' hcov'
    have hq1 : df.filter (fun r => key r == m && p r)
        = (df.filter p).filter (fun r => key r == m) := by
      rw [List.filter_filter]
    have hq2 : df.filter (fun r => !(key r == m) && p r)
        = (df.filter p).filter (fun r => !(key r == m)) := by
      rw [List.filter_filter]
    rw [htail, hq1]
    refine List.Perm.trans (List.Perm.append_left _ ?_)
      (List.filter_append_perm (fun r => key r == m) (df.filter p))
    exact hq2 ▸ hperm

lemma flatMap_filter_length {α κ : Type} [DecidableEq κ] (key : α → κ)
    (body : κ → List α) (m : κ) :
    ∀ ms : List κ, ms.Nodup → (∀ m' ∈ ms, ∀ r ∈ body m', key r = m') →
      ((ms.flatMap body).filter (fun r => key r == m)).length
        = if m ∈ ms then (body m).length else 0 := by
  intro ms
  induction ms with
  | nil => intro _ _; simp
  | cons m' ms ih =>
    intro hnd hbody
    have hm' : m' ∉ ms := (List.nodup_cons.mp hnd).1
    have hnd' : ms.Nodup := (List.nodup_cons.mp hnd).2
    have hbody' : ∀ x ∈ ms, ∀ r ∈ body x, key r = x :=
      fun x hx => hbody x (List.mem_cons_of_mem _ hx)
    rw [List.flatMap_cons, List.filter_append, List.length_append, ih hnd' hbody']
    by_cases hmm : m = m'
    · subst hmm
      have h1 : (body m).filter (fun r => key r == m) = body m := by
        apply List.filter_eq_self.mpr
        intro r hr
        simp [hbody m (List.mem_cons_self _ _) r hr]
      simp [h1, hm']
    · have h1 : (body m').filter (fun r => key r == m) = [] := by
        apply List.filter_eq_nil_iff.mpr
        intro r hr hkey
        have hk := hbody m' (List.mem_cons_self _ _) r hr
        rw [hk] at hkey
        have hkk : m' = m := by simpa using hkey
        exact hmm hkk.symm
      simp [h1, hmm]

lemma batches_join_take (l : List SampleRec) (k : Nat) :
    ((List.range k).map (batch l)).flatten = l.take (k * batchSize) := by
  induction k with
  | zero => simp
  | succ n ih =>
    rw [List.range_succ, List.map_append, List.flatten_append, ih]
    have hsplit : (n + 1) * batchSize = n * batchSize + batchSize := by ring
    rw [hsplit, List.take_add]
    simp [batch]

lemma raterBatches_flatten (l : List SampleRec) : (raterBatches l).flatten = l := by
  rw [raterBatches, batches_join_take]
  apply List.take_of_length_le
  show l.length ≤ (l.length / batchSize + 1) * batchSize
  unfold batchSize
  omega

lemma length_batch (l : List SampleRec) (i : Nat) :
    (batch l i).length = min batchSize (l.length - i * batchSize) := by
  simp [batch]

lemma length_batch_full (l : List SampleRec) (i : Nat) (h : i + 1 < numBatches l) :
    (batch l i).length = batchSize := by
  rw [length_batch]
  unfold numBatches batchSize at *
  omega

lemma mem_of_mem_batch (l b : List SampleRec) (hb : b ∈ raterBatches l)
    (s : SampleRec) (hs : s ∈ b) : s ∈ l := by
  rcases List.mem_map.mp hb with ⟨i, _, rfl⟩
  exact (List.drop_sublist _ _).subset ((List.take_sublist _ _).subset hs)

lemma assignIDs_idNum (start : Nat) (l : List ResultRecord) :
    (assignIDs start l).map (fun s => idNum s.sampleID) = List.range' start l.length := by
  induction l generalizing start with
  | nil => rfl
  | cons r rs ih => simp [assignIDs, ih, idNum_sampleIDStr, List.range'_succ]

/-- C8: `clean_answer` strips every non-alphabetic character from an
answer string, preserving exactly the letters in their original order
(so "A, B, C" becomes "ABC": the result is a subsequence of the input,
all of whose characters are alphabetic, keeping every alphabetic
occurrence), and passes a missing value through unchanged. -/
theorem clean_answer_letters_only :
    clean_answer none = none
    ∧ clean_answer (some ['A', ',', ' ', 'B', ',', ' ', 'C']) = some ['A', 'B', 'C']
    ∧ ∀ s : List Char, ∃ t, clean_answer (some s) = some t
        ∧ List.Sublist t s
        ∧ (∀ c ∈ t, pyIsAlpha c = true)
        ∧ (∀ c : Char, pyIsAlpha c = true → t.count c = s.count c) := by
  refine ⟨rfl, by decide, fun s => ⟨s.filter pyIsAlpha, rfl, List.filter_sublist _, ?_, ?_⟩⟩
  · intro c hc
    exact List.of_mem_filter hc
  · intro c hc
    exact List.count_filter hc

/-- C7: `clean_confidence_value` always returns either the decimal
number denoted by the digit/dot characters of the input (for "85%"
exactly 85) or a missing value on parse failure (for "abc"); being a
total function into an option type, it raises nothing and never aborts
a batch. -/
theorem clean_confidence_value_total :
    clean_confidence_value (.str ['8', '5', '%']) = some 85
    ∧ clean_confidence_value (.str ['a', 'b', 'c']) = none
    ∧ (∀ x, clean_confidence_value x = none ∨ ∃ q, clean_confidence_value x = some q)
    ∧ (∀ s, clean_confidence_value (.str s) = parseStripped (s.filter isNumChar)) := by
  refine ⟨?_, by decide, fun x => ?_, fun s => rfl⟩
  · simp [clean_confidence_value, parseStripped, isNumChar, digitsVal]
  · cases h : clean_confidence_value x
    · exact Or.inl rfl
    · exact Or.inr ⟨_, rfl⟩

/-- C5: label reconciliation takes the first non-missing rater value in
the fixed priority order (Zia then Miao for the correct set; Sitao,
Cao, Miao, then Zia for the incorrect set); a row whose raters in
priority order hold [missing, missing, some v] reconciles to v, and a
row with every rater missing lands in the flagged (printed) subset
rather than receiving a default label. -/
theorem label_reconciliation_first_nonmissing
    (rowsC : List LabeledCorrect) (rowsI : List LabeledIncorrect)
    (rC : LabeledCorrect) (rI : LabeledIncorrect)
    (hC : rC ∈ rowsC) (hCn : labelCorrect rC = none)
    (hI : rI ∈ rowsI) (hIn : labelIncorrect rI = none) :
    (∀ r : LabeledCorrect, labelCorrect r = firstNonMissing [r.zia, r.miao])
    ∧ (∀ r : LabeledIncorrect,
        labelIncorrect r = firstNonMissing [r.sitao, r.cao, r.miao, r.zia])
    ∧ (∀ i z v, labelIncorrect ⟨i, none, none, some v, z⟩ = some v)
    ∧ rC ∈ flaggedCorrect rowsC ∧ rI ∈ flaggedIncorrect rowsI := by
  refine ⟨?_, ?_, ?_, ?_, ?_⟩
  · rintro ⟨i, z, m⟩
    cases z <;> cases m <;> rfl
  · rintro ⟨i, s4, c4, m4, z4⟩
    cases s4 <;> cases c4 <;> cases m4 <;> cases z4 <;> rfl
  · intro i z v
    rfl
  · exact List.mem_filter.mpr ⟨hC, by simp [hCn]⟩
  · exact List.mem_filter.mpr ⟨hI, by simp [hIn]⟩

theorem label_reconciliation_first_nonmissing_witness :
    (⟨['S'], none, none⟩ : LabeledCorrect) ∈ flaggedCorrect [⟨['S'], none, none⟩]
    ∧ (⟨['S'], none, none, none, none⟩ : LabeledIncorrect)
        ∈ flaggedIncorrect [⟨['S'], none, none, none, none⟩] := by
  have h := label_reconciliation_first_nonmissing
      [⟨['S'], none, none⟩] [⟨['S'], none, none, none, none⟩]
      ⟨['S'], none, none⟩ ⟨['S'], none, none, none, none⟩
      (List.mem_singleton.mpr rfl) rfl (List.mem_singleton.mpr rfl) rfl
  exact ⟨h.2.2.2.1, h.2.2.2.2⟩

/-- C10: with no input files `load_and_process_files` returns the empty
table rather than an error, and the reliability carve-out — the only
later stage whose pandas call has a raising precondition — succeeds on
every sample table of at least 30 rows (the batching, shuffling and
reconciliation stages are total functions of their inputs). -/
theorem pipeline_no_fatal (sel : Nat → List SampleRec → List SampleRec)
    (t : List SampleRec) (h30 : 30 ≤ t.length) :
    load_and_process_files [] = .ok []
    ∧ (reliabilitySample sel t).isSome = true := by
  refine ⟨rfl, ?_⟩
  rw [reliabilitySample, if_pos h30]
  rfl

theorem pipeline_no_fatal_witness :
    load_and_process_files [] = .ok []
    ∧ (reliabilitySample takeSampler (demoSamples 30)).isSome = true := by
  have hlen : 30 ≤ (demoSamples 30).length := by simp [demoSamples]
  exact pipeline_no_fatal takeSampler (demoSamples 30) hlen

/-- C1: `create_samples` assigns identifiers sequentially across the
correct-then-incorrect partitions: the sorted true table carries the
identifier numbers 1..nT in order, the sorted false table continues
with nT+1..nT+nF (so the first incorrect identifier continues the
numbering after the last correct one), and over the combined table the
zero-padded identifier strings are pairwise distinct and their numbers
strictly increase in assignment order. -/
theorem create_samples_id_assignment
    (sel : Nat → List ResultRecord → List ResultRecord) (df : List ResultRecord) :
    ((create_samples sel df).1.map (fun s => idNum s.sampleID)
        = List.range' 1 (create_samples sel df).1.length)
    ∧ ((create_samples sel df).2.map (fun s => idNum s.sampleID)
        = List.range' ((create_samples sel df).1.length + 1)
            (create_samples sel df).2.length)
    ∧ (((create_samples sel df).1 ++ (create_samples sel df).2).map
        SampleRec.sampleID).Nodup
    ∧ List.Pairwise (fun a b => idNum a.sampleID < idNum b.sampleID)
        ((create_samples sel df).1 ++ (create_samples sel df).2) := by
  simp only [create_samples]
  set t := (trueSamplesRaw sel df).mergeSort sampleLE with ht
  set f := (falseSamplesRaw df).mergeSort sampleLE with hf
  have hlen1 : (assignIDs 1 t).length = t.length := length_assignIDs 1 t
  have hlen2 : (assignIDs (t.length + 1) f).length = f.length := length_assignIDs _ f
  have hrange : List.range' 1 t.length ++ List.range' (t.length + 1) f.length
      = List.range' 1 (t.length + f.length) := by
    have h := List.range'_append 1 t.length f.length 1
    simp only [Nat.one_mul, Nat.add_comm 1 t.length] at h
    rw [Nat.add_comm f.length t.length] at h
    exact h
  have hmapnum : ((assignIDs 1 t ++ assignIDs (t.length + 1) f).map
      (fun s => idNum s.sampleID)) = List.range' 1 (t.length + f.length) := by
    rw [List.map_append, assignIDs_idNum, assignIDs_idNum, hrange]
  refine ⟨?_, ?_, ?_, ?_⟩
  · rw [hlen1]
    exact assignIDs_idNum 1 t
  · rw [hlen1, hlen2]
    exact assignIDs_idNum _ f
  · rw [List.map_append, assignIDs_map_id, assignIDs_map_id, ← List.map_append, hrange]
    exact (List.nodup_range' ..).map sampleIDStr_injective
  · have hpw : List.Pairwise (fun a b => a < b) (List.range' 1 (t.length + f.length)) :=
      List.pairwise_lt_range' ..
    rw [← hmapnum] at hpw
    exact List.pairwise_map.mp hpw

/-- C2: no sample identifier occurs both in the reliability carve-out
and in a rater batch: the rater pool removes, by set membership of the
identifier, every row whose identifier is in the carve-out, and the
shuffle and the batch slicing only rearrange the pool's rows. -/
theorem reliability_rater_disjoint
    (selR : Nat → List SampleRec → List SampleRec)
    (sh : List SampleRec → List SampleRec)
    (samples rel b : List SampleRec) (s t : SampleRec)
    (_hrel : reliabilitySample selR samples = some rel)
    (hsh : ShuffleSpec sh)
    (hb : b ∈ raterBatches (sh (raterPool samples rel)))
    (hs : s ∈ b) (ht : t ∈ rel) :
    s.sampleID ≠ t.sampleID := by
  have hsp : s ∈ sh (raterPool samples rel) := mem_of_mem_batch _ _ hb s hs
  have hpool : s ∈ raterPool samples rel := (hsh _).subset hsp
  have hfil := List.mem_filter.mp hpool
  intro heq
  have hnotin : s.sampleID ∉ rel.map SampleRec.sampleID := by simpa using hfil.2
  apply hnotin
  rw [heq]
  exact List.mem_map_of_mem _ ht

theorem reliability_rater_disjoint_witness :
    (demoSample 31).sampleID ≠ (demoSample 1).sampleID := by
  apply reliability_rater_disjoint takeSampler idShuffle (demoSamples 31)
      ((demoSamples 31).take 30)
      (batch (idShuffle (raterPool (demoSamples 31) ((demoSamples 31).take 30))) 0)
      (demoSample 31) (demoSample 1)
  · rfl
  · exact fun l => List.Perm.refl l
  · exact List.mem_map_of_mem _ (List.mem_range.mpr (Nat.succ_pos _))
  · decide
  · decide

/-- C9 counterexample: it is not the case that every exported rater
batch holds exactly 100 rows.  From a 40-row sample table the 30-row
carve-out leaves 10 rows; the single exported batch then holds 10
rows. -/
theorem rater_batches_not_all_full :
    ¬ ∀ (samples rel : List SampleRec) (sh : List SampleRec → List SampleRec),
        ShuffleSpec sh →
        ∀ b ∈ raterBatches (sh (raterPool samples rel)), b.length = batchSize := by
  intro h
  have hid : ShuffleSpec idShuffle := fun l => List.Perm.refl l
  have hb := h (demoSamples 40) ((demoSamples 40).take 30) idShuffle hid
      (batch (idShuffle (raterPool (demoSamples 40) ((demoSamples 40).take 30))) 0)
      (List.mem_map_of_mem _ (List.mem_range.mpr (Nat.succ_pos _)))
  have hlen : (batch (idShuffle (raterPool (demoSamples 40)
      ((demoSamples 40).take 30))) 0).length = 10 := by decide
  rw [hb] at hlen
  exact absurd hlen (by decide)

/-- C9 (amended): the batches partition the shuffled pool — their
concatenation is exactly the shuffled remainder, so every remaining row
occurs in the exported batches exactly as often as in the pool; every
batch holds at most 100 rows; every batch except the last holds exactly
100 rows; and the last batch holds the remainder (empty when the pool
size is a multiple of 100). -/
theorem rater_batches_partition (sh : List SampleRec → List SampleRec)
    (samples rel : List SampleRec) (hsh : ShuffleSpec sh) :
    (raterBatches (sh (raterPool samples rel))).flatten = sh (raterPool samples rel)
    ∧ List.Perm (sh (raterPool samples rel)) (raterPool samples rel)
    ∧ (∀ b ∈ raterBatches (sh (raterPool samples rel)), b.length ≤ batchSize)
    ∧ (∀ i, i + 1 < numBatches (sh (raterPool samples rel)) →
        (batch (sh (raterPool samples rel)) i).length = batchSize)
    ∧ (batch (sh (raterPool samples rel))
          (numBatches (sh (raterPool samples rel)) - 1)).length
        = (sh (raterPool samples rel)).length % batchSize := by
  set l := sh (raterPool samples rel) with hl
  refine ⟨raterBatches_flatten l, hsh _, ?_, fun i hi => length_batch_full l i hi, ?_⟩
  · intro b hb
    rcases List.mem_map.mp hb with ⟨i, _, rfl⟩
    rw [length_batch]
    exact Nat.min_le_left _ _
  · rw [length_batch]
    show min batchSize (l.length - (l.length / batchSize + 1 - 1) * batchSize)
        = l.length % batchSize
    unfold batchSize
    omega

theorem rater_batches_partition_witness :
    (raterBatches (idShuffle (raterPool (demoSamples 1) []))).flatten
      = idShuffle (raterPool (demoSamples 1) []) :=
  (rater_batches_partition idShuffle (demoSamples 1) []
    (fun l => List.Perm.refl l)).1

lemma if_length_guard {α : Type} (l : List α) : (if 0 < l.length then l else []) = l := by
  cases l <;> simp

lemma trueSamplesRaw_body (sel : Nat → List ResultRecord → List ResultRecord)
    (df : List ResultRecord) : trueSamplesRaw sel df
    = (modelsOf df).flatMap (fun m =>
        if 0 < (correctOf df m).length
        then sel (min 30 (correctOf df m).length) (correctOf df m) else []) := rfl

lemma falseSamplesRaw_perm (df : List ResultRecord) :
    List.Perm (falseSamplesRaw df)
      (df.filter (fun r => !r.isCorrect && !containsSkip r.modelAnswer)) := by
  have heq : falseSamplesRaw df
      = (modelsOf df).flatMap (fun m => df.filter
          (fun r => r.model == m && (!r.isCorrect && !containsSkip r.modelAnswer))) := by
    rw [falseSamplesRaw]
    apply flatMap_congr
    intro m _
    show (if 0 < (incorrectOf df m).length then incorrectOf df m else [])
        = df.filter (fun r => r.model == m
            && (!r.isCorrect && !containsSkip r.modelAnswer))
    rw [if_length_guard, incorrectOf]
    apply List.filter_congr
    intro r _
    rw [Bool.and_assoc]
  rw [heq]
  apply flatMap_filter_perm ResultRecord.model df (modelsOf df) _ (nodup_uniqueList _)
  intro r hr _
  rw [modelsOf, mem_uniqueList]
  exact List.mem_map_of_mem _ hr

/-- C4: the incorrect-answer sample of `create_samples` is exhaustive
and exclusive: as a multiset it consists of exactly the input records
whose derived correctness is false and whose normalized model answer
does not contain the skip marker 跳过, and the same holds of each
model's rows within it. -/
theorem false_samples_exhaustive
    (sel : Nat → List ResultRecord → List ResultRecord)
    (df : List ResultRecord) (m : String) :
    List.Perm ((create_samples sel df).2.map SampleRec.row)
      (df.filter (fun r => !r.isCorrect && !containsSkip r.modelAnswer))
    ∧ List.Perm (((create_samples sel df).2.map SampleRec.row).filter
        (fun r => r.model == m))
      (df.filter (fun r => r.model == m
          && (!r.isCorrect && !containsSkip r.modelAnswer))) := by
  have hmap : (create_samples sel df).2.map SampleRec.row
      = (falseSamplesRaw df).mergeSort sampleLE := by
    simp only [create_samples]
    exact assignIDs_map_row _ _
  have hperm : List.Perm ((create_samples sel df).2.map SampleRec.row)
      (df.filter (fun r => !r.isCorrect && !containsSkip r.modelAnswer)) := by
    rw [hmap]
    exact (List.mergeSort_perm _ _).trans (falseSamplesRaw_perm df)
  refine ⟨hperm, ?_⟩
  have h2 := hperm.filter (fun r => r.model == m)
  rw [List.filter_filter] at h2
  exact h2

/-- C3: for every model of the input table, the correct-answer sample
produced by `create_samples` holds exactly min(30, number of that
model's correct answers) rows — 30 when the model has at least 30
correct answers, all of them when it has fewer. -/
theorem true_sample_size
    (sel : Nat → List ResultRecord → List ResultRecord)
    (df : List ResultRecord) (m : String)
    (hsel : SamplerSpec sel) (hm : m ∈ modelsOf df) :
    ((create_samples sel df).1.filter (fun s => s.row.model == m)).length
      = min 30 (correctOf df m).length := by
  have h1 : ((create_samples sel df).1.filter (fun s => s.row.model == m)).length
      = (((trueSamplesRaw sel df).mergeSort sampleLE).filter
          (fun r => r.model == m)).length := by
    simp only [create_samples]
    exact assignIDs_filter_length 1 ((trueSamplesRaw sel df).mergeSort sampleLE)
      (fun r => r.model == m)
  have h2 : (((trueSamplesRaw sel df).mergeSort sampleLE).filter
      (fun r => r.model == m)).length
      = ((trueSamplesRaw sel df).filter (fun r => r.model == m)).length := by
    rw [← List.countP_eq_length_filter, ← List.countP_eq_length_filter]
    exact (List.mergeSort_perm _ _).countP_eq _
  have hbody : ∀ m' ∈ modelsOf df, ∀ r ∈
      (if 0 < (correctOf df m').length
        then sel (min 30 (correctOf df m').length) (correctOf df m') else []),
      r.model = m' := by
    intro m' _ r hr
    by_cases hc : 0 < (correctOf df m').length
    · rw [if_pos hc] at hr
      have hsub := (hsel (min 30 (correctOf df m').length) (correctOf df m')
          (Nat.min_le_right _ _)).2
      have hmem : r ∈ correctOf df m' := hsub.subset hr
      have hb : (r.model == m' && r.isCorrect) = true := (List.mem_filter.mp hmem).2
      have hb2 : r.model = m' ∧ r.isCorrect = true := by simpa using hb
      exact hb2.1
    · rw [if_neg hc] at hr
      exact absurd hr (List.not_mem_nil _)
  have h3 := flatMap_filter_length ResultRecord.model
      (fun m' => if 0 < (correctOf df m').length
        then sel (min 30 (correctOf df m').length) (correctOf df m') else [])
      m (modelsOf df) (nodup_uniqueList _) hbody
  rw [h1, h2, trueSamplesRaw_body, h3, if_pos hm]
  show (if 0 < (correctOf df m).length
      then sel (min 30 (correctOf df m).length) (correctOf df m) else []).length
    = min 30 (correctOf df m).length
  by_cases hc : 0 < (correctOf df m).length
  · rw [if_pos hc]
    exact (hsel _ _ (Nat.min_le_right _ _)).1
  · rw [if_neg hc]
    have hz : (correctOf df m).length = 0 := by omega
    rw [hz]
    rfl

theorem true_sample_size_witness :
    ((create_samples takeSampler demoDF).1.filter
        (fun s => s.row.model == ("qwen"))).length
      = min 30 (correctOf demoDF ("qwen")).length := by
  apply true_sample_size takeSampler demoDF ("qwen")
  · intro k l hk
    exact ⟨by simp [takeSampler]; omega, (List.take_sublist k l).subperm⟩
  · decide

lemma clean_answer_alpha (x : Option (List Char)) (s : List Char)
    (h : clean_answer x = some s) : ∀ c ∈ s, pyIsAlpha c = true := by
  cases x with
  | none => exact absurd h (by simp [clean_answer])
  | some y =>
    have hy : y.filter pyIsAlpha = s := by
      simpa [clean_answer] using h
    subst hy
    intro c hc
    exact List.of_mem_filter hc

lemma processFile_ok_some (f : InputFile) (rows : List ResultRecord)
    (h : processFile f = .ok (some rows)) (rec : ResultRecord) (hrec : rec ∈ rows) :
    ∃ raw, raw ∈ f.rows
      ∧ rec.modelAnswer = clean_answer raw.rawModelAnswer
      ∧ rec.correctAnswer = clean_answer raw.rawCorrectAnswer
      ∧ rec.isCorrect = pdEq rec.modelAnswer rec.correctAnswer := by
  unfold processFile at h
  split at h
  · exact absurd h (by simp)
  · split at h
    · exact absurd h (by simp)
    · split at h
      · exact absurd h (by simp)
      · split at h
        · exact absurd h (by simp)
        · injection h with h1
          injection h1 with h2
          subst h2
          rcases List.mem_map.mp hrec with ⟨raw, hraw, hgr⟩
          subst hgr
          exact ⟨raw, hraw, rfl, rfl, rfl⟩

lemma load_mem (files : List InputFile) (df : List ResultRecord)
    (h : load_and_process_files files = .ok df) (rec : ResultRecord) (hrec : rec ∈ df) :
    ∃ fl, fl ∈ files ∧ ∃ raw, raw ∈ fl.rows
      ∧ rec.modelAnswer = clean_answer raw.rawModelAnswer
      ∧ rec.correctAnswer = clean_answer raw.rawCorrectAnswer
      ∧ rec.isCorrect = pdEq rec.modelAnswer rec.correctAnswer := by
  induction files generalizing df with
  | nil =>
    rw [load_and_process_files] at h
    injection h with h1
    subst h1
    exact absurd hrec (List.not_mem_nil _)
  | cons f fs ih =>
    rw [load_and_process_files] at h
    cases hf : processFile f with
    | error e =>
      rw [hf] at h
      exact absurd h (by simp)
    | ok r =>
      rw [hf] at h
      cases hl : load_and_process_files fs with
      | error e =>
        rw [hl] at h
        exact absurd h (by simp)
      | ok rest =>
        rw [hl] at h
        cases r with
        | none =>
          have hdf : rest = df := by simpa using h
          subst hdf
          rcases ih rest hl hrec with ⟨fl, hfl, hrest⟩
          exact ⟨fl, List.mem_cons_of_mem _ hfl, hrest⟩
        | some rows =>
          have hdf : rows ++ rest = df := by simpa using h
          subst hdf
          rcases List.mem_append.mp hrec with hr | hr
          · rcases processFile_ok_some f rows hf rec hr with ⟨raw, hraw⟩
            exact ⟨f, List.mem_cons_self _ _, raw, hraw⟩
          · rcases ih rest hl hr with ⟨fl, hfl, hrest⟩
            exact ⟨fl, List.mem_cons_of_mem _ hfl, hrest⟩

/-- C6 counterexample: the loaded answer fields are not uppercase-only.
Loading a condition-1 file whose model answer is "a" yields a record
whose normalized model answer is "a", which contains a character that
is not an uppercase letter: `clean_answer` strips non-alphabetic
characters but performs no case conversion. -/
theorem load_not_uppercase :
    ¬ ∀ (files : List InputFile) (df : List ResultRecord),
        load_and_process_files files = .ok df →
        ∀ rec ∈ df, upperOnly rec.modelAnswer = true := by
  intro h
  have hload : load_and_process_files [demoFileLower] = .ok [demoLowerRec] := by rfl
  have hup := h [demoFileLower] [demoLowerRec] hload demoLowerRec
      (List.mem_singleton.mpr rfl)
  exact absurd hup (by decide)

/-- C6 (amended): every record loaded by the pipeline has its
model-answer and correct-answer strings normalized by `clean_answer` —
letters-only with the original characters (and their case) preserved —
before the comparison that sets the record's correctness field, which
compares exactly the two normalized fields. -/
theorem load_normalizes_before_compare
    (files : List InputFile) (df : List ResultRecord)
    (h : load_and_process_files files = .ok df)
    (rec : ResultRecord) (hrec : rec ∈ df) :
    (∃ fl, fl ∈ files ∧ ∃ raw, raw ∈ fl.rows
        ∧ rec.modelAnswer = clean_answer raw.rawModelAnswer
        ∧ rec.correctAnswer = clean_answer raw.rawCorrectAnswer
        ∧ rec.isCorrect = pdEq rec.modelAnswer rec.correctAnswer)
    ∧ (∀ s, rec.modelAnswer = some s → ∀ c ∈ s, pyIsAlpha c = true)
    ∧ (∀ s, rec.correctAnswer = some s → ∀ c ∈ s, pyIsAlpha c = true) := by
  rcases load_mem files df h rec hrec with ⟨fl, hfl, raw, hraw, hma, hca, hcmp⟩
  refine ⟨⟨fl, hfl, raw, hraw, hma, hca, hcmp⟩, ?_, ?_⟩
  · intro s hs
    exact clean_answer_alpha raw.rawModelAnswer s (hma ▸ hs)
  · intro s hs
    exact clean_answer_alpha raw.rawCorrectAnswer s (hca ▸ hs)

theorem load_normalizes_before_compare_witness :
    (∃ fl, fl ∈ [demoFileLower] ∧ ∃ raw, raw ∈ fl.rows
        ∧ demoLowerRec.modelAnswer = clean_answer raw.rawModelAnswer
        ∧ demoLowerRec.correctAnswer = clean_answer raw.rawCorrectAnswer
        ∧ demoLowerRec.isCorrect
            = pdEq demoLowerRec.modelAnswer demoLowerRec.correctAnswer)
    ∧ (∀ s, demoLowerRec.modelAnswer = some s → ∀ c ∈ s, pyIsAlpha c = true)
    ∧ (∀ s, demoLowerRec.correctAnswer = some s → ∀ c ∈ s, pyIsAlpha c = true) :=
  load_normalizes_before_compare [demoFileLower] [demoLowerRec] (by rfl)
    demoLowerRec (List.mem_singleton.mpr rfl)

end QualAnalysis
